import Mathlib

/-!
Verification of the opportunity-detection core of the water-arbitrage
system (`water_arbitrage_system.py`).

The detector consumes the table of raw price rows (columns Location,
Price, Volume, Date; the Type column is never read by the detector and
is omitted here), keeps the latest row per location, scans every ordered
pair of distinct latest rows, and emits qualifying opportunities sorted
by net profit.

Embedding choices:
* Python floats are modelled as exact rationals (`ℚ`).
* A price cell is `Option ℚ`: `some q` when `float(cell)` succeeds with
  value `q`, `none` when it raises `ValueError`/`TypeError` (non-numeric
  or missing).  Likewise a volume cell is `Option ℤ` for `int(cell)`,
  with a missing cell modelled as `some 0` (the source uses
  `.get('Volume', 0)`).
* Dates are modelled as already-parsed naturals; `sort_values('Date')`
  is modelled as a stable ascending insertion sort (equal-date order is
  not fixed by the source, and no statement here depends on it).
* `datetime.now()` is modelled as an explicit `now : String` argument.
* The uncaught `ZeroDivisionError` raised when a buy price is zero is
  modelled with `Except Unit`: `.error ()` is the propagated exception.
  The `except (ValueError, TypeError)` clause of the source corresponds
  to the `none` branches of the `Option` matches, which skip the pair.
* `self.get_weather_impact` and the transport-cost lookup are methods of
  the same object; the detector is parameterised over them so that
  statements can quantify over the lookups, and the concrete functions
  of the source are defined below and used wherever a claim is about
  them.
-/

/-- Result of `get_weather_impact`: the dict
`{'temp': …, 'humidity': …, 'drought_risk': …}`. -/
structure WeatherImpact where
  temp : ℚ
  humidity : ℚ
  drought_risk : ℚ
deriving DecidableEq

/-- One row of the RawData table, as consumed by the detector.  The
`Type` column is omitted (never read by the detector). -/
structure PriceRecord where
  location : String
  price : Option ℚ
  volume : Option ℤ
  date : ℕ
deriving DecidableEq

/-- One emitted opportunity row:
`[buy location, buy price, sell location, sell price, net profit,
risk score, timestamp]`. -/
structure Opportunity where
  buyLocation : String
  buyPrice : ℚ
  sellLocation : String
  sellPrice : ℚ
  netProfit : ℚ
  riskScore : ℚ
  timestamp : String
deriving DecidableEq

/-- `get_weather_impact`: the hard-coded weather dict with
`{'temp': 80, 'humidity': 50, 'drought_risk': 0.5}` as the `.get`
default for unknown locations. -/
def get_weather_impact (location : String) : WeatherImpact :=
  if location = "Central Valley" then ⟨95, 30, 7/10⟩
  else if location = "Southern CA" then ⟨88, 45, 8/10⟩
  else if location = "Bay Area" then ⟨72, 65, 3/10⟩
  else if location = "Sacramento Valley" then ⟨89, 40, 5/10⟩
  else if location = "Imperial Valley" then ⟨102, 25, 6/10⟩
  else ⟨80, 50, 1/2⟩

/-- The `transport_matrix` dict of `estimate_transport_cost`;
`none` models `dict.get` returning `None` for an absent key. -/
def transport_matrix (p : String × String) : Option ℚ :=
  if p = ("Central Valley", "Bay Area") then some 25
  else if p = ("Central Valley", "Southern CA") then some 35
  else if p = ("Imperial Valley", "Southern CA") then some 20
  else if p = ("Imperial Valley", "Bay Area") then some 45
  else if p = ("Sacramento Valley", "Bay Area") then some 30
  else if p = ("Sacramento Valley", "Southern CA") then some 40
  else none

/-- Python `x or d` on an optional number: `None` and `0` are falsy. -/
def pyOrFloat (o : Option ℚ) (d : ℚ) : ℚ :=
  match o with
  | some v => if v = 0 then d else v
  | none => d

/-- `estimate_transport_cost`:
`transport_matrix.get((f,t)) or transport_matrix.get((t,f)) or 30`. -/
def estimate_transport_cost (from_location to_location : String) : ℚ :=
  pyOrFloat (transport_matrix (from_location, to_location))
    (pyOrFloat (transport_matrix (to_location, from_location)) 30)

/-- Python `round` to an integer: round half to even (banker's
rounding).  Exact on our rational model of floats. -/
def roundHalfEven (q : ℚ) : ℤ :=
  if q - ⌊q⌋ < 1/2 then ⌊q⌋
  else if 1/2 < q - ⌊q⌋ then ⌊q⌋ + 1
  else if ⌊q⌋ % 2 = 0 then ⌊q⌋ else ⌊q⌋ + 1

/-- Python `round(q, 2)`. -/
def round2 (q : ℚ) : ℚ := (roundHalfEven (q * 100) : ℚ) / 100

/-- `calculate_risk_score`.  `none` models the `ValueError` raised by
`int(buy_location_data.get('Volume', 0))` on a non-numeric volume
(caught and turned into a skip by the caller). -/
def calculate_risk_score (weather : String → WeatherImpact)
    (buy_location_data sell_location_data : PriceRecord)
    (profit_margin : ℚ) : Option ℚ :=
  match buy_location_data.volume with
  | none => none
  | some buy_volume =>
    let base_risk : ℚ := 1/10
    let base_risk := if 50 < profit_margin then base_risk + 3/10 else base_risk
    let base_risk := if buy_volume < 500 then base_risk + 2/10 else base_risk
    let buy_weather := weather buy_location_data.location
    let sell_weather := weather sell_location_data.location
    let avg_drought_risk := (buy_weather.drought_risk + sell_weather.drought_risk) / 2
    let base_risk := base_risk + avg_drought_risk * (3/10)
    some (min base_risk 1)

/-- The body of the inner pair loop of `detect_arbitrage_opportunities`
for one ordered pair (buy row, sell row).  `.ok none`: the pair emits
nothing (threshold not met, or `ValueError`/`TypeError` caught by the
`except` clause).  `.ok (some o)`: the pair emits opportunity `o`.
`.error ()`: the division `profit / buy_price` raised an uncaught
`ZeroDivisionError`. -/
def processPair (weather : String → WeatherImpact)
    (transport : String → String → ℚ)
    (row1 row2 : PriceRecord) (now : String) :
    Except Unit (Option Opportunity) :=
  match row1.price with
  | none => .ok none
  | some buy_price =>
    match row2.price with
    | none => .ok none
    | some sell_price =>
      let profit := sell_price - buy_price
      if buy_price = 0 then .error ()
      else
        let profit_margin := profit / buy_price * 100
        if 50 < profit ∧ 10 < profit_margin then
          match calculate_risk_score weather row1 row2 profit_margin with
          | none => .ok none
          | some risk_score =>
            let transport_cost := transport row1.location row2.location
            let net_profit := profit - transport_cost
            if 20 < net_profit then
              .ok (some ⟨row1.location, buy_price, row2.location, sell_price,
                round2 net_profit, round2 risk_score, now⟩)
            else .ok none
        else .ok none

/-- Stable ascending insertion by date (model of
`df.sort_values('Date')`). -/
def insertByDate (r : PriceRecord) : List PriceRecord → List PriceRecord
  | [] => [r]
  | x :: xs => if r.date ≤ x.date then r :: x :: xs else x :: insertByDate r xs

/-- Stable sort of the rows by date. -/
def sortByDate : List PriceRecord → List PriceRecord
  | [] => []
  | r :: rs => insertByDate r (sortByDate rs)

/-- `groupby('Location').tail(1)` on the date-sorted frame: keep, in row
order, the last row of each location. -/
def lastPerLocation : List PriceRecord → List PriceRecord
  | [] => []
  | r :: rs =>
    if rs.any (fun s => s.location = r.location) then lastPerLocation rs
    else r :: lastPerLocation rs

/-- Rows paired with their (distinct) frame index, starting at `n`. -/
def enumFrom (n : ℕ) : List PriceRecord → List (ℕ × PriceRecord)
  | [] => []
  | r :: rs => (n, r) :: enumFrom (n + 1) rs

/-- The inner `for j, row2 in latest_prices.iterrows()` loop for a fixed
buy row `row1` at index `bi`; the `if i != j` guard is the index
comparison. -/
def innerScan (weather : String → WeatherImpact)
    (transport : String → String → ℚ)
    (row1 : PriceRecord) (bi : ℕ) :
    List (ℕ × PriceRecord) → String → Except Unit (List Opportunity)
  | [], _ => .ok []
  | (j, row2) :: rest, now =>
    if bi = j then innerScan weather transport row1 bi rest now
    else
      match processPair weather transport row1 row2 now with
      | .error e => .error e
      | .ok none => innerScan weather transport row1 bi rest now
      | .ok (some o) =>
        match innerScan weather transport row1 bi rest now with
        | .error e => .error e
        | .ok l => .ok (o :: l)

/-- The outer `for i, row1 in latest_prices.iterrows()` loop. -/
def outerScan (weather : String → WeatherImpact)
    (transport : String → String → ℚ) :
    List (ℕ × PriceRecord) → List (ℕ × PriceRecord) → String →
    Except Unit (List Opportunity)
  | [], _, _ => .ok []
  | (i, row1) :: rest, full, now =>
    match innerScan weather transport row1 i full now with
    | .error e => .error e
    | .ok h =>
      match outerScan weather transport rest full now with
      | .error e => .error e
      | .ok t => .ok (h ++ t)

/-- The complete pairwise scan, before sorting. -/
def scanOpportunities (weather : String → WeatherImpact)
    (transport : String → String → ℚ)
    (latest_prices : List PriceRecord) (now : String) :
    Except Unit (List Opportunity) :=
  outerScan weather transport (enumFrom 0 latest_prices)
    (enumFrom 0 latest_prices) now

/-- Stable descending insertion by net profit.  Python's
`list.sort(key=lambda x: x[4], reverse=True)` is a stable sort keyed on
the (rounded) net profit alone; any stable sort computes the same
permutation, so insertion sort is an exact model. -/
def insertDesc (a : Opportunity) : List Opportunity → List Opportunity
  | [] => [a]
  | b :: bs => if b.netProfit ≤ a.netProfit then a :: b :: bs
    else b :: insertDesc a bs

/-- Stable descending sort by net profit. -/
def sortDesc : List Opportunity → List Opportunity
  | [] => []
  | a :: as => insertDesc a (sortDesc as)

/-- `detect_arbitrage_opportunities`.  `records` is the full RawData
table in insertion order; `now` is the wall clock reading used for the
emitted timestamps.  The returned list is the complete sorted list
(`return opportunities`); only the spreadsheet write is capped at 10
rows, see `sheetOpportunities`. -/
def detect_arbitrage_opportunities (weather : String → WeatherImpact)
    (transport : String → String → ℚ)
    (records : List PriceRecord) (now : String) :
    Except Unit (List Opportunity) :=
  if records.length < 2 then .ok []
  else
    Except.map sortDesc
      (scanOpportunities weather transport
        (lastPerLocation (sortByDate records)) now)

/-- The rows written to the Opportunities sheet:
`opportunities[:10]` of the sorted list. -/
def sheetOpportunities (weather : String → WeatherImpact)
    (transport : String → String → ℚ)
    (records : List PriceRecord) (now : String) :
    Except Unit (List Opportunity) :=
  Except.map (fun l => l.take 10)
    (detect_arbitrage_opportunities weather transport records now)

/-- Erase the timestamp field (for comparing runs made at different
clock readings). -/
def clearTimestamp (o : Opportunity) : Opportunity :=
  { o with timestamp := "" }

/-- Boolean strict lexicographic order on character lists (used to state
the spec's "lexical order" of location names). -/
def lexLtChars : List Char → List Char → Bool
  | [], [] => false
  | [], _ :: _ => true
  | _ :: _, [] => false
  | a :: as, b :: bs => if a < b then true else if b < a then false
    else lexLtChars as bs

/-- Strict lexicographic order on strings, following the spec's words
"buy_location lexical order then sell_location lexical order". -/
def lexLt (a b : String) : Bool := lexLtChars a.data b.data

/-! ### Rounding lemmas -/

theorem roundHalfEven_intCast (n : ℤ) : roundHalfEven (n : ℚ) = n := by
  unfold roundHalfEven
  rw [Int.floor_intCast]
  norm_num

theorem roundHalfEven_nonneg {q : ℚ} (h : 0 ≤ q) : 0 ≤ roundHalfEven q := by
  unfold roundHalfEven
  have hf : (0 : ℤ) ≤ ⌊q⌋ := Int.floor_nonneg.mpr h
  split_ifs <;> omega

theorem roundHalfEven_le {q : ℚ} {n : ℤ} (h : q ≤ (n : ℚ)) :
    roundHalfEven q ≤ n := by
  unfold roundHalfEven
  have hf : ⌊q⌋ ≤ n := by
    have := Int.floor_le_floor h
    rwa [Int.floor_intCast] at this
  split_ifs with h1 h2 h3
  · exact hf
  · -- q - ⌊q⌋ > 1/2, so ⌊q⌋ < n and ⌊q⌋ + 1 ≤ n
    have : (⌊q⌋ : ℚ) < (n : ℚ) - 1/2 := by linarith
    have : (⌊q⌋ : ℚ) < (n : ℚ) := by linarith
    have : ⌊q⌋ < n := by exact_mod_cast this
    omega
  · exact hf
  · -- q - ⌊q⌋ = 1/2 exactly
    have he : q - ⌊q⌋ = 1/2 := le_antisymm (not_lt.mp h2) (not_lt.mp h1)
    have : (⌊q⌋ : ℚ) = q - 1/2 := by linarith
    have : (⌊q⌋ : ℚ) < (n : ℚ) := by linarith
    have : ⌊q⌋ < n := by exact_mod_cast this
    omega

theorem roundHalfEven_ge {q : ℚ} {n : ℤ} (h : (n : ℚ) ≤ q) :
    n ≤ roundHalfEven q := by
  unfold roundHalfEven
  have hf : n ≤ ⌊q⌋ := Int.le_floor.mpr h
  split_ifs <;> omega

theorem round2_nonneg {q : ℚ} (h : 0 ≤ q) : 0 ≤ round2 q := by
  unfold round2
  have : (0 : ℤ) ≤ roundHalfEven (q * 100) :=
    roundHalfEven_nonneg (by positivity)
  positivity

theorem round2_le_one {q : ℚ} (h : q ≤ 1) : round2 q ≤ 1 := by
  unfold round2
  have h100 : q * 100 ≤ ((100 : ℤ) : ℚ) := by push_cast; linarith
  have := roundHalfEven_le h100
  rw [div_le_one (by norm_num)]
  exact_mod_cast this

theorem round2_ge_20 {q : ℚ} (h : 20 < q) : 20 ≤ round2 q := by
  unfold round2
  have h100 : ((2000 : ℤ) : ℚ) ≤ q * 100 := by push_cast; linarith
  have h1 := roundHalfEven_ge h100
  rw [le_div_iff₀ (by norm_num)]
  have h2 : ((2000 : ℤ) : ℚ) ≤ (roundHalfEven (q * 100) : ℚ) := by exact_mod_cast h1
  push_cast at h2 ⊢
  linarith

theorem round2_idem (q : ℚ) : round2 (round2 q) = round2 q := by
  unfold round2
  have : ((roundHalfEven (q * 100) : ℚ) / 100 * 100) =
      ((roundHalfEven (q * 100) : ℤ) : ℚ) := by field_simp
  rw [this, roundHalfEven_intCast]

/-! ### Transport-cost symmetry -/

theorem transport_matrix_asymm {f t : String} {v : ℚ}
    (h : transport_matrix (f, t) = some v) : transport_matrix (t, f) = none := by
  unfold transport_matrix at h ⊢
  split_ifs at h with h1 h2 h3 h4 h5 h6
  all_goals first
    | (rw [Prod.mk.injEq] at h1; obtain ⟨hf, ht⟩ := h1; subst hf; subst ht; decide)
    | (rw [Prod.mk.injEq] at h2; obtain ⟨hf, ht⟩ := h2; subst hf; subst ht; decide)
    | (rw [Prod.mk.injEq] at h3; obtain ⟨hf, ht⟩ := h3; subst hf; subst ht; decide)
    | (rw [Prod.mk.injEq] at h4; obtain ⟨hf, ht⟩ := h4; subst hf; subst ht; decide)
    | (rw [Prod.mk.injEq] at h5; obtain ⟨hf, ht⟩ := h5; subst hf; subst ht; decide)
    | (rw [Prod.mk.injEq] at h6; obtain ⟨hf, ht⟩ := h6; subst hf; subst ht; decide)
    | exact Option.noConfusion h

/-- C8: `estimate_transport_cost` is symmetric: for every pair of
locations, the cost in one direction equals the cost in the other,
including unmodeled pairs where the default 30 applies to both orders. -/
theorem C8_transport_cost_symmetric (a b : String) :
    estimate_transport_cost a b = estimate_transport_cost b a := by
  unfold estimate_transport_cost
  cases hab : transport_matrix (a, b) with
  | none =>
    cases hba : transport_matrix (b, a) with
    | none => rfl
    | some v => simp [pyOrFloat]
  | some v =>
    cases hba : transport_matrix (b, a) with
    | none => simp [pyOrFloat]
    | some w =>
      exact absurd (transport_matrix_asymm hab) (by rw [hba]; simp)

/-! ### List infrastructure: date sort, latest-per-location, enumeration -/

theorem mem_insertByDate {r a : PriceRecord} {l : List PriceRecord} :
    a ∈ insertByDate r l ↔ a = r ∨ a ∈ l := by
  induction l with
  | nil => simp [insertByDate]
  | cons x xs ih =>
    unfold insertByDate
    split_ifs <;> simp_all <;> tauto

theorem mem_sortByDate {a : PriceRecord} {l : List PriceRecord} :
    a ∈ sortByDate l ↔ a ∈ l := by
  induction l with
  | nil => simp [sortByDate]
  | cons x xs ih => simp [sortByDate, mem_insertByDate, ih]

theorem length_insertByDate (r : PriceRecord) (l : List PriceRecord) :
    (insertByDate r l).length = l.length + 1 := by
  induction l with
  | nil => rfl
  | cons x xs ih =>
    unfold insertByDate
    split_ifs <;> simp_all

theorem length_sortByDate (l : List PriceRecord) :
    (sortByDate l).length = l.length := by
  induction l with
  | nil => rfl
  | cons x xs ih => simp [sortByDate, length_insertByDate, ih]

theorem lastPerLocation_subset {a : PriceRecord} {l : List PriceRecord}
    (h : a ∈ lastPerLocation l) : a ∈ l := by
  induction l with
  | nil => simpa [lastPerLocation] using h
  | cons x xs ih =>
    unfold lastPerLocation at h
    split_ifs at h with hc
    · exact List.mem_cons_of_mem x (ih h)
    · rcases List.mem_cons.mp h with h1 | h1
      · exact h1 ▸ List.mem_cons_self x xs
      · exact List.mem_cons_of_mem x (ih h1)

theorem length_lastPerLocation_le (l : List PriceRecord) :
    (lastPerLocation l).length ≤ l.length := by
  induction l with
  | nil => simp [lastPerLocation]
  | cons x xs ih =>
    unfold lastPerLocation
    split_ifs <;> simp <;> omega

theorem pairwise_lastPerLocation (l : List PriceRecord) :
    List.Pairwise (fun a b => a.location ≠ b.location) (lastPerLocation l) := by
  induction l with
  | nil => exact List.Pairwise.nil
  | cons x xs ih =>
    unfold lastPerLocation
    split_ifs with hc
    · exact ih
    · refine List.Pairwise.cons (fun b hb => ?_) ih
      intro hloc
      exact hc (List.any_eq_true.mpr
        ⟨b, lastPerLocation_subset hb, by simp [hloc]⟩)

theorem location_inj_lastPerLocation {l : List PriceRecord}
    {a b : PriceRecord} (ha : a ∈ lastPerLocation l)
    (hb : b ∈ lastPerLocation l) (h : a.location = b.location) : a = b := by
  by_contra hne
  have hsymm : Symmetric (fun a b : PriceRecord => a.location ≠ b.location) := by
    intro x y hxy h'
    exact hxy h'.symm
  exact (pairwise_lastPerLocation l).forall hsymm ha hb hne h

theorem mem_enumFrom_elem {n : ℕ} {l : List PriceRecord} {i : ℕ}
    {r : PriceRecord} (h : (i, r) ∈ enumFrom n l) : r ∈ l := by
  induction l generalizing n with
  | nil => simpa [enumFrom] using h
  | cons x xs ih =>
    unfold enumFrom at h
    rcases List.mem_cons.mp h with h1 | h1
    · simp [Prod.mk.injEq] at h1
      exact h1.2 ▸ List.mem_cons_self x xs
    · exact List.mem_cons_of_mem x (ih h1)

theorem mem_enumFrom_ge {n : ℕ} {l : List PriceRecord} {i : ℕ}
    {r : PriceRecord} (h : (i, r) ∈ enumFrom n l) : n ≤ i := by
  induction l generalizing n with
  | nil => simp [enumFrom] at h
  | cons x xs ih =>
    unfold enumFrom at h
    rcases List.mem_cons.mp h with h1 | h1
    · simp [Prod.mk.injEq] at h1
      omega
    · have := ih h1
      omega

theorem exists_mem_enumFrom {n : ℕ} {l : List PriceRecord}
    {r : PriceRecord} (h : r ∈ l) : ∃ i, (i, r) ∈ enumFrom n l := by
  induction l generalizing n with
  | nil => simp at h
  | cons x xs ih =>
    rcases List.mem_cons.mp h with h1 | h1
    · exact ⟨n, h1 ▸ List.mem_cons_self _ _⟩
    · obtain ⟨i, hi⟩ := @ih (n + 1) h1
      exact ⟨i, List.mem_cons_of_mem _ hi⟩


theorem enumFrom_idx_inj {n : ℕ} {l : List PriceRecord} {i : ℕ}
    {a b : PriceRecord} (ha : (i, a) ∈ enumFrom n l)
    (hb : (i, b) ∈ enumFrom n l) : a = b := by
  induction l generalizing n with
  | nil => simp [enumFrom] at ha
  | cons x xs ih =>
    unfold enumFrom at ha hb
    rcases List.mem_cons.mp ha with h1 | h1 <;>
      rcases List.mem_cons.mp hb with h2 | h2
    · rw [Prod.mk.injEq] at h1 h2
      rw [h1.2, h2.2]
    · rw [Prod.mk.injEq] at h1
      have := mem_enumFrom_ge h2
      omega
    · rw [Prod.mk.injEq] at h2
      have := mem_enumFrom_ge h1
      omega
    · exact ih h1 h2

theorem enumFrom_countP_two {n : ℕ} {l : List PriceRecord} {i j : ℕ}
    {a b : PriceRecord} (p : PriceRecord → Bool)
    (ha : (i, a) ∈ enumFrom n l) (hb : (j, b) ∈ enumFrom n l)
    (hij : i ≠ j) (hpa : p a) (hpb : p b) : 2 ≤ l.countP p := by
  induction l generalizing n with
  | nil => simp [enumFrom] at ha
  | cons x xs ih =>
    unfold enumFrom at ha hb
    rw [List.countP_cons]
    rcases List.mem_cons.mp ha with h1 | h1 <;>
      rcases List.mem_cons.mp hb with h2 | h2
    · rw [Prod.mk.injEq] at h1 h2
      omega
    · rw [Prod.mk.injEq] at h1
      have hmem : b ∈ xs := mem_enumFrom_elem h2
      have hcnt : 0 < xs.countP p := List.countP_pos_iff.mpr ⟨b, hmem, hpb⟩
      have hx : p x = true := h1.2 ▸ hpa
      rw [if_pos hx]
      omega
    · rw [Prod.mk.injEq] at h2
      have hmem : a ∈ xs := mem_enumFrom_elem h1
      have hcnt : 0 < xs.countP p := List.countP_pos_iff.mpr ⟨a, hmem, hpa⟩
      have hx : p x = true := h2.2 ▸ hpb
      rw [if_pos hx]
      omega
    · have := ih h1 h2
      omega

/-! ### Descending stable sort lemmas -/

theorem mem_insertDesc {a b : Opportunity} {l : List Opportunity} :
    b ∈ insertDesc a l ↔ b = a ∨ b ∈ l := by
  induction l with
  | nil => simp [insertDesc]
  | cons x xs ih =>
    unfold insertDesc
    split_ifs <;> simp_all <;> tauto

theorem mem_sortDesc {a : Opportunity} {l : List Opportunity} :
    a ∈ sortDesc l ↔ a ∈ l := by
  induction l with
  | nil => simp [sortDesc]
  | cons x xs ih => simp [sortDesc, mem_insertDesc, ih]

theorem pairwise_insertDesc {a : Opportunity} {l : List Opportunity}
    (h : List.Pairwise (fun x y => y.netProfit ≤ x.netProfit) l) :
    List.Pairwise (fun x y => y.netProfit ≤ x.netProfit) (insertDesc a l) := by
  induction l with
  | nil => simp [insertDesc]
  | cons b bs ih =>
    unfold insertDesc
    rcases List.pairwise_cons.mp h with ⟨hb, hbs⟩
    split_ifs with hle
    · refine List.pairwise_cons.mpr ⟨?_, h⟩
      intro x hx
      rcases List.mem_cons.mp hx with h1 | h1
      · exact h1 ▸ hle
      · exact (hb x h1).trans hle
    · refine List.pairwise_cons.mpr ⟨?_, ih hbs⟩
      intro x hx
      rcases mem_insertDesc.mp hx with h1 | h1
      · exact h1 ▸ le_of_lt (lt_of_not_le hle)
      · exact hb x h1

theorem pairwise_sortDesc (l : List Opportunity) :
    List.Pairwise (fun x y => y.netProfit ≤ x.netProfit) (sortDesc l) := by
  induction l with
  | nil => exact List.Pairwise.nil
  | cons a as ih => exact pairwise_insertDesc ih

theorem filter_insertDesc_eq (a : Opportunity) (l : List Opportunity) :
    (insertDesc a l).filter (fun o => o.netProfit = a.netProfit) =
    a :: l.filter (fun o => o.netProfit = a.netProfit) := by
  induction l with
  | nil => simp [insertDesc]
  | cons b bs ih =>
    unfold insertDesc
    split_ifs with hle
    · simp
    · have hbq : ¬ (b.netProfit = a.netProfit) := by
        intro he
        exact hle (le_of_eq he)
      simp only [List.filter_cons, hbq, decide_eq_true_eq, if_false]
      simpa using ih

theorem filter_insertDesc_ne (a : Opportunity) (l : List Opportunity)
    {q : ℚ} (hq : a.netProfit ≠ q) :
    (insertDesc a l).filter (fun o => o.netProfit = q) =
    l.filter (fun o => o.netProfit = q) := by
  induction l with
  | nil => simp [insertDesc, hq]
  | cons b bs ih =>
    unfold insertDesc
    split_ifs with hle
    · simp only [List.filter_cons, hq, decide_eq_true_eq, if_false]
    · by_cases hbq : b.netProfit = q
      · simp only [List.filter_cons, hbq, decide_eq_true_eq, if_true, ih]
      · simp only [List.filter_cons, hbq, decide_eq_true_eq, if_false, ih]

theorem filter_sortDesc (l : List Opportunity) (q : ℚ) :
    (sortDesc l).filter (fun o => o.netProfit = q) =
    l.filter (fun o => o.netProfit = q) := by
  induction l with
  | nil => rfl
  | cons a as ih =>
    show (insertDesc a (sortDesc as)).filter _ = _
    by_cases hq : a.netProfit = q
    · subst hq
      rw [filter_insertDesc_eq, ih, List.filter_cons]
      simp
    · rw [filter_insertDesc_ne a _ hq, ih, List.filter_cons]
      simp [hq]

theorem insertDesc_map {f : Opportunity → Opportunity}
    (hf : ∀ o, (f o).netProfit = o.netProfit) (a : Opportunity)
    (l : List Opportunity) :
    List.map f (insertDesc a l) = insertDesc (f a) (List.map f l) := by
  induction l with
  | nil => simp [insertDesc]
  | cons b bs ih =>
    simp only [List.map_cons]
    unfold insertDesc
    rw [hf, hf]
    split_ifs with hle
    · simp
    · simp only [List.map_cons, List.cons.injEq, true_and]
      exact ih

theorem sortDesc_map {f : Opportunity → Opportunity}
    (hf : ∀ o, (f o).netProfit = o.netProfit) (l : List Opportunity) :
    List.map f (sortDesc l) = sortDesc (List.map f l) := by
  induction l with
  | nil => rfl
  | cons a as ih =>
    show List.map f (insertDesc a (sortDesc as)) = _
    rw [insertDesc_map hf, ih]
    rfl

/-! ### processPair lemmas -/

theorem processPair_none_left {weather transport row1 row2 now}
    (hb : row1.price = none) :
    processPair weather transport row1 row2 now = .ok none := by
  unfold processPair
  rw [hb]

theorem processPair_none_right {weather transport row1 row2 now bp}
    (hb : row1.price = some bp) (hs : row2.price = none) :
    processPair weather transport row1 row2 now = .ok none := by
  unfold processPair
  rw [hb, hs]

theorem processPair_spec {weather transport row1 row2 now bp sp risk}
    (hb : row1.price = some bp) (hs : row2.price = some sp) (h0 : bp ≠ 0)
    (hr : calculate_risk_score weather row1 row2 ((sp - bp) / bp * 100) =
      some risk) :
    processPair weather transport row1 row2 now =
      if 50 < sp - bp ∧ 10 < (sp - bp) / bp * 100 ∧
          20 < sp - bp - transport row1.location row2.location then
        .ok (some ⟨row1.location, bp, row2.location, sp,
          round2 (sp - bp - transport row1.location row2.location),
          round2 risk, now⟩)
      else .ok none := by
  unfold processPair
  rw [hb, hs]
  dsimp only
  rw [if_neg h0]
  by_cases hc : 50 < sp - bp ∧ 10 < (sp - bp) / bp * 100
  · rw [if_pos hc, hr]
    dsimp only
    by_cases hn : 20 < sp - bp - transport row1.location row2.location
    · rw [if_pos hn, if_pos ⟨hc.1, hc.2, hn⟩]
    · rw [if_neg hn, if_neg (fun hx => hn hx.2.2)]
  · rw [if_neg hc, if_neg (fun hx => hc ⟨hx.1, hx.2.1⟩)]

theorem processPair_ok_some_inv {weather transport row1 row2 now o}
    (h : processPair weather transport row1 row2 now = .ok (some o)) :
    ∃ bp sp risk, row1.price = some bp ∧ row2.price = some sp ∧ bp ≠ 0 ∧
      calculate_risk_score weather row1 row2 ((sp - bp) / bp * 100) =
        some risk ∧
      50 < sp - bp ∧ 10 < (sp - bp) / bp * 100 ∧
      20 < sp - bp - transport row1.location row2.location ∧
      o = ⟨row1.location, bp, row2.location, sp,
        round2 (sp - bp - transport row1.location row2.location),
        round2 risk, now⟩ := by
  unfold processPair at h
  cases hb : row1.price with
  | none => rw [hb] at h; exact absurd h (by simp)
  | some bp =>
    rw [hb] at h
    cases hs : row2.price with
    | none => rw [hs] at h; exact absurd h (by simp)
    | some sp =>
      rw [hs] at h
      dsimp only at h
      by_cases h0 : bp = 0
      · rw [if_pos h0] at h
        exact absurd h (by simp)
      · rw [if_neg h0] at h
        by_cases hc : 50 < sp - bp ∧ 10 < (sp - bp) / bp * 100
        · rw [if_pos hc] at h
          cases hr : calculate_risk_score weather row1 row2
              ((sp - bp) / bp * 100) with
          | none => rw [hr] at h; exact absurd h (by simp)
          | some risk =>
            rw [hr] at h
            dsimp only at h
            by_cases hn : 20 < sp - bp -
                transport row1.location row2.location
            · rw [if_pos hn] at h
              simp only [Except.ok.injEq, Option.some.injEq] at h
              exact ⟨bp, sp, risk, rfl, rfl, h0, hr, hc.1, hc.2, hn, h.symm⟩
            · rw [if_neg hn] at h
              exact absurd h (by simp)
        · rw [if_neg hc] at h
          exact absurd h (by simp)

theorem processPair_isOk {weather transport row1 row2 now}
    (h : ∀ p, row1.price = some p → p ≠ 0) :
    ∃ r, processPair weather transport row1 row2 now = .ok r := by
  cases hb : row1.price with
  | none => exact ⟨none, processPair_none_left hb⟩
  | some bp =>
    cases hs : row2.price with
    | none => exact ⟨none, processPair_none_right hb hs⟩
    | some sp =>
      have h0 : bp ≠ 0 := h bp hb
      cases hr : calculate_risk_score weather row1 row2
          ((sp - bp) / bp * 100) with
      | none =>
        refine ⟨none, ?_⟩
        unfold processPair
        rw [hb, hs]
        dsimp only
        rw [if_neg h0]
        by_cases hc : 50 < sp - bp ∧ 10 < (sp - bp) / bp * 100
        · rw [if_pos hc, hr]
        · rw [if_neg hc]
      | some risk =>
        rw [processPair_spec hb hs h0 hr]
        by_cases hcn : 50 < sp - bp ∧ 10 < (sp - bp) / bp * 100 ∧
            20 < sp - bp - transport row1.location row2.location
        · rw [if_pos hcn]
          exact ⟨_, rfl⟩
        · rw [if_neg hcn]
          exact ⟨none, rfl⟩

theorem processPair_clear (weather transport row1 row2 n1 n2) :
    Except.map (Option.map clearTimestamp)
      (processPair weather transport row1 row2 n1) =
    Except.map (Option.map clearTimestamp)
      (processPair weather transport row1 row2 n2) := by
  unfold processPair
  cases row1.price with
  | none => rfl
  | some bp =>
    cases row2.price with
    | none => rfl
    | some sp =>
      dsimp only
      by_cases h0 : bp = 0
      · simp only [if_pos h0]
      · simp only [if_neg h0]
        by_cases hc : 50 < sp - bp ∧ 10 < (sp - bp) / bp * 100
        · simp only [if_pos hc]
          cases calculate_risk_score weather row1 row2
              ((sp - bp) / bp * 100) with
          | none => rfl
          | some risk =>
            dsimp only
            by_cases hn : 20 < sp - bp -
                transport row1.location row2.location
            · simp only [if_pos hn]
              rfl
            · simp only [if_neg hn]
        · simp only [if_neg hc]

/-! ### Scan lemmas -/

theorem innerScan_isOk {weather transport row1 bi rest now}
    (h : ∀ js ∈ rest, ∃ r,
      processPair weather transport row1 js.2 now = .ok r) :
    ∃ l, innerScan weather transport row1 bi rest now = .ok l := by
  induction rest with
  | nil => exact ⟨[], rfl⟩
  | cons js t ih =>
    obtain ⟨j, s⟩ := js
    have ht : ∀ js ∈ t, ∃ r,
        processPair weather transport row1 js.2 now = .ok r :=
      fun js hjs => h js (List.mem_cons_of_mem _ hjs)
    obtain ⟨l, hl⟩ := ih ht
    unfold innerScan
    by_cases hij : bi = j
    · rw [if_pos hij]
      exact ⟨l, hl⟩
    · rw [if_neg hij]
      obtain ⟨r, hr⟩ := h (j, s) (List.mem_cons_self _ _)
      rw [hr]
      cases r with
      | none => exact ⟨l, hl⟩
      | some o =>
        rw [hl]
        exact ⟨o :: l, rfl⟩

theorem innerScan_ok_mem {weather transport row1 bi rest now l}
    (h : innerScan weather transport row1 bi rest now = .ok l)
    {o : Opportunity} :
    o ∈ l ↔ ∃ js ∈ rest, bi ≠ js.1 ∧
      processPair weather transport row1 js.2 now = .ok (some o) := by
  induction rest generalizing l with
  | nil =>
    simp only [innerScan, Except.ok.injEq] at h
    subst h
    simp
  | cons js t ih =>
    obtain ⟨j, s⟩ := js
    unfold innerScan at h
    by_cases hij : bi = j
    · rw [if_pos hij] at h
      rw [ih h]
      constructor
      · rintro ⟨js, hjs, hne, hp⟩
        exact ⟨js, List.mem_cons_of_mem _ hjs, hne, hp⟩
      · rintro ⟨js, hjs, hne, hp⟩
        rcases List.mem_cons.mp hjs with h1 | h1
        · exact absurd (h1 ▸ hij) hne
        · exact ⟨js, h1, hne, hp⟩
    · rw [if_neg hij] at h
      cases hp : processPair weather transport row1 s now with
      | error e => rw [hp] at h; exact absurd h (by simp)
      | ok r =>
        rw [hp] at h
        cases r with
        | none =>
          rw [ih h]
          constructor
          · rintro ⟨js, hjs, hne, hpp⟩
            exact ⟨js, List.mem_cons_of_mem _ hjs, hne, hpp⟩
          · rintro ⟨js, hjs, hne, hpp⟩
            rcases List.mem_cons.mp hjs with h1 | h1
            · subst h1
              rw [hp] at hpp
              exact absurd hpp (by simp)
            · exact ⟨js, h1, hne, hpp⟩
        | some o' =>
          cases hrec : innerScan weather transport row1 bi t now with
          | error e => rw [hrec] at h; exact absurd h (by simp)
          | ok l' =>
            rw [hrec] at h
            simp only [Except.ok.injEq] at h
            subst h
            rw [List.mem_cons, ih hrec]
            constructor
            · rintro (h1 | ⟨js, hjs, hne, hpp⟩)
              · exact ⟨(j, s), List.mem_cons_self _ _, hij,
                  h1 ▸ hp⟩
              · exact ⟨js, List.mem_cons_of_mem _ hjs, hne, hpp⟩
            · rintro ⟨js, hjs, hne, hpp⟩
              rcases List.mem_cons.mp hjs with h1 | h1
              · subst h1
                rw [hp] at hpp
                simp only [Except.ok.injEq, Option.some.injEq] at hpp
                exact Or.inl hpp.symm
              · exact Or.inr ⟨js, h1, hne, hpp⟩

theorem outerScan_isOk {weather transport l full now}
    (h : ∀ ib ∈ l, ∃ out,
      innerScan weather transport ib.2 ib.1 full now = .ok out) :
    ∃ out, outerScan weather transport l full now = .ok out := by
  induction l with
  | nil => exact ⟨[], rfl⟩
  | cons ib t ih =>
    obtain ⟨i, b⟩ := ib
    obtain ⟨hd, hhd⟩ := h (i, b) (List.mem_cons_self _ _)
    obtain ⟨tl, htl⟩ := ih fun ib hib => h ib (List.mem_cons_of_mem _ hib)
    refine ⟨hd ++ tl, ?_⟩
    unfold outerScan
    rw [hhd, htl]

theorem outerScan_ok_mem {weather transport l full now out}
    (h : outerScan weather transport l full now = .ok out)
    {o : Opportunity} :
    o ∈ out ↔ ∃ ib ∈ l, ∃ js ∈ full, ib.1 ≠ js.1 ∧
      processPair weather transport ib.2 js.2 now = .ok (some o) := by
  induction l generalizing out with
  | nil =>
    simp only [outerScan, Except.ok.injEq] at h
    subst h
    simp
  | cons ib t ih =>
    obtain ⟨i, b⟩ := ib
    unfold outerScan at h
    cases hin : innerScan weather transport b i full now with
    | error e => rw [hin] at h; exact absurd h (by simp)
    | ok hd =>
      rw [hin] at h
      cases hrec : outerScan weather transport t full now with
      | error e => rw [hrec] at h; exact absurd h (by simp)
      | ok tl =>
        rw [hrec] at h
        simp only [Except.ok.injEq] at h
        subst h
        rw [List.mem_append, innerScan_ok_mem hin, ih hrec]
        constructor
        · rintro (⟨js, hjs, hne, hpp⟩ | ⟨ib, hib, js, hjs, hne, hpp⟩)
          · exact ⟨(i, b), List.mem_cons_self _ _, js, hjs, hne, hpp⟩
          · exact ⟨ib, List.mem_cons_of_mem _ hib, js, hjs, hne, hpp⟩
        · rintro ⟨ib, hib, js, hjs, hne, hpp⟩
          rcases List.mem_cons.mp hib with h1 | h1
          · subst h1
            exact Or.inl ⟨js, hjs, hne, hpp⟩
          · exact Or.inr ⟨ib, h1, js, hjs, hne, hpp⟩

theorem innerScan_all_none {weather transport row1 bi rest now}
    (h : ∀ js ∈ rest, bi ≠ js.1 →
      processPair weather transport row1 js.2 now = .ok none) :
    innerScan weather transport row1 bi rest now = .ok [] := by
  induction rest with
  | nil => rfl
  | cons js t ih =>
    obtain ⟨j, s⟩ := js
    have ht := ih fun js hjs hne => h js (List.mem_cons_of_mem _ hjs) hne
    unfold innerScan
    by_cases hij : bi = j
    · rw [if_pos hij]
      exact ht
    · rw [if_neg hij, h (j, s) (List.mem_cons_self _ _) hij]
      exact ht

theorem outerScan_all_none {weather transport l full now}
    (h : ∀ ib ∈ l, ∀ js ∈ full, ib.1 ≠ js.1 →
      processPair weather transport ib.2 js.2 now = .ok none) :
    outerScan weather transport l full now = .ok [] := by
  induction l with
  | nil => rfl
  | cons ib t ih =>
    obtain ⟨i, b⟩ := ib
    have hhd : innerScan weather transport b i full now = .ok [] :=
      innerScan_all_none fun js hjs hne =>
        h (i, b) (List.mem_cons_self _ _) js hjs hne
    have htl := ih fun ib hib => h ib (List.mem_cons_of_mem _ hib)
    unfold outerScan
    rw [hhd, htl]
    rfl

theorem innerScan_clear (weather transport row1 bi rest n1 n2) :
    Except.map (List.map clearTimestamp)
      (innerScan weather transport row1 bi rest n1) =
    Except.map (List.map clearTimestamp)
      (innerScan weather transport row1 bi rest n2) := by
  induction rest with
  | nil => rfl
  | cons js t ih =>
    obtain ⟨j, s⟩ := js
    unfold innerScan
    by_cases hij : bi = j
    · simp only [if_pos hij]
      exact ih
    · simp only [if_neg hij]
      have hpc := processPair_clear weather transport row1 s n1 n2
      cases hp1 : processPair weather transport row1 s n1 with
      | error e =>
        rw [hp1] at hpc
        cases hp2 : processPair weather transport row1 s n2 with
        | error e2 => cases e; cases e2; rfl
        | ok r2 => rw [hp2] at hpc; exact absurd hpc (by simp [Except.map])
      | ok r1 =>
        rw [hp1] at hpc
        cases hp2 : processPair weather transport row1 s n2 with
        | error e2 => rw [hp2] at hpc; exact absurd hpc (by simp [Except.map])
        | ok r2 =>
          rw [hp2] at hpc
          simp only [Except.map, Except.ok.injEq] at hpc
          cases r1 with
          | none =>
            cases r2 with
            | none => exact ih
            | some b => exact absurd hpc (by simp)
          | some a =>
            cases r2 with
            | none => exact absurd hpc (by simp)
            | some b =>
              simp only [Option.map_some', Option.some.injEq] at hpc
              cases hr1 : innerScan weather transport row1 bi t n1 with
              | error e =>
                have := ih
                rw [hr1] at this
                cases hr2 : innerScan weather transport row1 bi t n2 with
                | error e2 => rfl
                | ok l2 =>
                  rw [hr2] at this
                  exact absurd this (by simp [Except.map])
              | ok l1 =>
                have := ih
                rw [hr1] at this
                cases hr2 : innerScan weather transport row1 bi t n2 with
                | error e2 =>
                  rw [hr2] at this
                  exact absurd this (by simp [Except.map])
                | ok l2 =>
                  rw [hr2] at this
                  simp only [Except.map, Except.ok.injEq] at this
                  simp only [Except.map, Except.ok.injEq, List.map_cons]
                  rw [hpc, this]

theorem outerScan_clear (weather transport l full n1 n2) :
    Except.map (List.map clearTimestamp)
      (outerScan weather transport l full n1) =
    Except.map (List.map clearTimestamp)
      (outerScan weather transport l full n2) := by
  induction l with
  | nil => rfl
  | cons ib t ih =>
    obtain ⟨i, b⟩ := ib
    unfold outerScan
    have hic := innerScan_clear weather transport b i full n1 n2
    cases h1 : innerScan weather transport b i full n1 with
    | error e =>
      rw [h1] at hic
      cases h2 : innerScan weather transport b i full n2 with
      | error e2 => cases e; cases e2; rfl
      | ok r2 => rw [h2] at hic; exact absurd hic (by simp [Except.map])
    | ok r1 =>
      rw [h1] at hic
      cases h2 : innerScan weather transport b i full n2 with
      | error e2 => rw [h2] at hic; exact absurd hic (by simp [Except.map])
      | ok r2 =>
        rw [h2] at hic
        simp only [Except.map, Except.ok.injEq] at hic
        cases ho1 : outerScan weather transport t full n1 with
        | error e =>
          have := ih
          rw [ho1] at this
          cases ho2 : outerScan weather transport t full n2 with
          | error e2 => rfl
          | ok l2 =>
            rw [ho2] at this
            exact absurd this (by simp [Except.map])
        | ok l1 =>
          have := ih
          rw [ho1] at this
          cases ho2 : outerScan weather transport t full n2 with
          | error e2 =>
            rw [ho2] at this
            exact absurd this (by simp [Except.map])
          | ok l2 =>
            rw [ho2] at this
            simp only [Except.map, Except.ok.injEq] at this
            simp only [Except.map, Except.ok.injEq, List.map_append]
            rw [hic, this]

/-! ### Risk-score lemmas -/

theorem calculate_risk_score_formula (weather : String → WeatherImpact)
    (b s : PriceRecord) (m : ℚ) {v : ℤ} (hv : b.volume = some v) :
    calculate_risk_score weather b s m =
      some (min (1/10 + (if 50 < m then (3:ℚ)/10 else 0) +
        (if v < 500 then (2:ℚ)/10 else 0) +
        ((weather b.location).drought_risk +
          (weather s.location).drought_risk) / 2 * (3/10)) 1) := by
  unfold calculate_risk_score
  rw [hv]
  dsimp only
  congr 2
  split_ifs <;> ring

theorem calculate_risk_score_bounds {weather : String → WeatherImpact}
    {b s : PriceRecord} {m r : ℚ}
    (hw : ∀ loc, 0 ≤ (weather loc).drought_risk ∧
      (weather loc).drought_risk ≤ 1)
    (h : calculate_risk_score weather b s m = some r) : 0 ≤ r ∧ r ≤ 1 := by
  cases hv : b.volume with
  | none =>
    unfold calculate_risk_score at h
    rw [hv] at h
    exact absurd h (by simp)
  | some v =>
    rw [calculate_risk_score_formula weather b s m hv] at h
    simp only [Option.some.injEq] at h
    subst h
    obtain ⟨hb0, hb1⟩ := hw b.location
    obtain ⟨hs0, hs1⟩ := hw s.location
    refine ⟨le_min ?_ zero_le_one, min_le_right _ _⟩
    split_ifs <;> linarith

/-! ### Detector-level helpers -/

theorem enumFrom_pairwise {R : PriceRecord → PriceRecord → Prop}
    {l : List PriceRecord} (hp : List.Pairwise R l) {n i j : ℕ}
    {a b : PriceRecord} (ha : (i, a) ∈ enumFrom n l)
    (hb : (j, b) ∈ enumFrom n l) (hij : i < j) : R a b := by
  induction l generalizing n with
  | nil => simp [enumFrom] at ha
  | cons x xs ih =>
    rcases List.pairwise_cons.mp hp with ⟨hx, hxs⟩
    unfold enumFrom at ha hb
    rcases List.mem_cons.mp ha with h1 | h1 <;>
      rcases List.mem_cons.mp hb with h2 | h2
    · rw [Prod.mk.injEq] at h1 h2
      omega
    · rw [Prod.mk.injEq] at h1
      exact h1.2 ▸ hx b (mem_enumFrom_elem h2)
    · rw [Prod.mk.injEq] at h2
      have := mem_enumFrom_ge h1
      omega
    · exact ih hxs h1 h2

theorem detect_mem_pair {weather transport records now out o}
    (h : detect_arbitrage_opportunities weather transport records now =
      .ok out) (ho : o ∈ out) :
    ∃ b s, b ∈ lastPerLocation (sortByDate records) ∧
      s ∈ lastPerLocation (sortByDate records) ∧
      b.location ≠ s.location ∧
      processPair weather transport b s now = .ok (some o) := by
  unfold detect_arbitrage_opportunities at h
  split_ifs at h with hlen
  · simp only [Except.ok.injEq] at h
    subst h
    simp at ho
  · cases hs : scanOpportunities weather transport
        (lastPerLocation (sortByDate records)) now with
    | error e => rw [hs] at h; exact absurd h (by simp [Except.map])
    | ok raw =>
      rw [hs] at h
      simp only [Except.map, Except.ok.injEq] at h
      subst h
      have hraw : o ∈ raw := mem_sortDesc.mp ho
      unfold scanOpportunities at hs
      obtain ⟨⟨i, b⟩, hib, ⟨j, s⟩, hjs, hij, hpp⟩ :=
        (outerScan_ok_mem hs).mp hraw
      refine ⟨b, s, mem_enumFrom_elem hib, mem_enumFrom_elem hjs, ?_, hpp⟩
      have hpw := pairwise_lastPerLocation (sortByDate records)
      rcases Nat.lt_or_ge i j with hlt | hge
      · exact enumFrom_pairwise hpw hib hjs hlt
      · have hlt : j < i := lt_of_le_of_ne hge (fun he => hij he.symm)
        exact (enumFrom_pairwise hpw hjs hib hlt).symm

theorem detect_isOk {weather transport records now}
    (hgood : ∀ r ∈ records, ∀ p, r.price = some p → p ≠ 0) :
    ∃ out, detect_arbitrage_opportunities weather transport records now =
      .ok out := by
  unfold detect_arbitrage_opportunities
  split_ifs with hlen
  · exact ⟨[], rfl⟩
  · have hscan : ∃ raw, scanOpportunities weather transport
        (lastPerLocation (sortByDate records)) now = .ok raw := by
      unfold scanOpportunities
      refine outerScan_isOk fun ib hib => ?_
      refine innerScan_isOk fun js hjs => ?_
      refine processPair_isOk fun p hp => ?_
      have hmem : ib.2 ∈ records :=
        mem_sortByDate.mp (lastPerLocation_subset (mem_enumFrom_elem
          (by exact (Prod.mk.eta (p := ib)) ▸ hib)))
      exact hgood ib.2 hmem p hp
    obtain ⟨raw, hraw⟩ := hscan
    rw [hraw]
    exact ⟨sortDesc raw, rfl⟩

theorem detect_ok_mem_iff {weather transport records now out}
    (hlen : ¬ records.length < 2)
    (h : detect_arbitrage_opportunities weather transport records now =
      .ok out) {o : Opportunity} :
    o ∈ out ↔ ∃ i b j s,
      (i, b) ∈ enumFrom 0 (lastPerLocation (sortByDate records)) ∧
      (j, s) ∈ enumFrom 0 (lastPerLocation (sortByDate records)) ∧
      i ≠ j ∧ processPair weather transport b s now = .ok (some o) := by
  unfold detect_arbitrage_opportunities at h
  rw [if_neg hlen] at h
  cases hs : scanOpportunities weather transport
      (lastPerLocation (sortByDate records)) now with
  | error e => rw [hs] at h; exact absurd h (by simp [Except.map])
  | ok raw =>
    rw [hs] at h
    simp only [Except.map, Except.ok.injEq] at h
    subst h
    rw [mem_sortDesc]
    unfold scanOpportunities at hs
    rw [outerScan_ok_mem hs]
    constructor
    · rintro ⟨⟨i, b⟩, hib, ⟨j, s⟩, hjs, hij, hpp⟩
      exact ⟨i, b, j, s, hib, hjs, hij, hpp⟩
    · rintro ⟨i, b, j, s, hib, hjs, hij, hpp⟩
      exact ⟨(i, b), hib, (j, s), hjs, hij, hpp⟩

/-! ### Concrete fixtures -/

/-- Scenario 1 of the spec: A price 100 volume 1000, B price 200 volume
1000, unmodeled transport pair (default 30 is not 20, but all other
numbers of the scenario are reproduced; locations are unknown to the
weather dict so drought risk is 0.5 on both sides). -/
def scenario1Records : List PriceRecord :=
  [⟨"LA", some 100, some 1000, 1⟩, ⟨"LB", some 200, some 1000, 2⟩]

/-- Two equal-priced buy locations whose latest records are dated so
that "Zulu" is scanned before "Alpha", plus one profitable sell
location. -/
def c2Records : List PriceRecord :=
  [⟨"Zulu", some 100, some 1000, 1⟩, ⟨"Alpha", some 100, some 1000, 2⟩,
   ⟨"Mike", some 200, some 1000, 3⟩]

/-- Six locations with doubling prices: every one of the 15 upward
ordered pairs clears all three thresholds. -/
def c3Records : List PriceRecord :=
  [⟨"P1", some 100, some 1000, 1⟩, ⟨"P2", some 200, some 1000, 2⟩,
   ⟨"P3", some 400, some 1000, 3⟩, ⟨"P4", some 800, some 1000, 4⟩,
   ⟨"P5", some 1600, some 1000, 5⟩, ⟨"P6", some 3200, some 1000, 6⟩]

/-- A zero-priced location next to a normal one. -/
def c4Records : List PriceRecord :=
  [⟨"Zero", some 0, some 1000, 1⟩, ⟨"Pos", some 100, some 1000, 2⟩]

/-- Buy 100, sell 150.001: the unrounded net profit is 20.001 > 20 but
it rounds to exactly 20.00. -/
def c7Records : List PriceRecord :=
  [⟨"LA", some 100, some 1000, 1⟩, ⟨"LB", some (150001/1000), some 1000, 2⟩]

/-! ### Claim theorems -/

/-- C4 (evidence for the code bug): on an input whose location "Zero"
has price 0 and "Pos" has price 100, the pair (Zero, Pos) reaches the
division `profit / buy_price` with a zero divisor; the resulting
`ZeroDivisionError` is not in the `except (ValueError, TypeError)`
tuple, so the whole scan aborts instead of skipping the pair as the
spec requires. -/
theorem C4_zero_price_aborts_scan :
    detect_arbitrage_opportunities get_weather_impact
      estimate_transport_cost c4Records "t" = .error () := by
  norm_num +decide [detect_arbitrage_opportunities, scanOpportunities,
    outerScan, innerScan, processPair, calculate_risk_score,
    get_weather_impact, estimate_transport_cost, transport_matrix,
    pyOrFloat, round2, roundHalfEven, sortByDate, insertByDate,
    lastPerLocation, enumFrom, sortDesc, insertDesc, c4Records,
    Except.map]

/-- C6: for every weather lookup, buy record, sell record and profit
margin, provided the buy volume parses to `v`, `calculate_risk_score`
returns exactly
`min(0.1 + 0.3·[margin>50] + 0.2·[v<500] + avg_drought·0.3, 1)`. -/
theorem C6_risk_score_formula (weather : String → WeatherImpact)
    (buy sell : PriceRecord) (margin : ℚ) (v : ℤ)
    (hv : buy.volume = some v) :
    calculate_risk_score weather buy sell margin =
      some (min (1/10 + (if 50 < margin then (3:ℚ)/10 else 0) +
        (if v < 500 then (2:ℚ)/10 else 0) +
        ((weather buy.location).drought_risk +
          (weather sell.location).drought_risk) / 2 * (3/10)) 1) :=
  calculate_risk_score_formula weather buy sell margin hv

/-- C6 witness: Scenario 1's inputs (margin 100 % > 50, volume 1000,
both drought risks 0.5) give risk score 0.55 = 11/20. -/
theorem C6_risk_score_formula_witness :
    (⟨"LA", some 100, some 1000, 1⟩ : PriceRecord).volume = some 1000 ∧
    calculate_risk_score get_weather_impact
      ⟨"LA", some 100, some 1000, 1⟩ ⟨"LB", some 200, some 1000, 2⟩ 100 =
      some (11/20) := by
  refine ⟨rfl, ?_⟩
  rw [C6_risk_score_formula get_weather_impact
    ⟨"LA", some 100, some 1000, 1⟩ ⟨"LB", some 200, some 1000, 2⟩
    100 1000 rfl]
  norm_num +decide [get_weather_impact]

/-- C9: whenever fewer than 2 of the latest-per-location rows have a
parseable price (in particular for an empty table and for a table whose
rows all share one location), the detector returns the empty list as a
normal result, with no error. -/
theorem C9_fewer_than_two_usable (weather : String → WeatherImpact)
    (transport : String → String → ℚ) (records : List PriceRecord)
    (now : String)
    (h : (lastPerLocation (sortByDate records)).countP
      (fun r => r.price.isSome) < 2) :
    detect_arbitrage_opportunities weather transport records now =
      .ok [] := by
  unfold detect_arbitrage_opportunities
  split_ifs with hlen
  · rfl
  · have hscan : scanOpportunities weather transport
        (lastPerLocation (sortByDate records)) now = .ok [] := by
      unfold scanOpportunities
      apply outerScan_all_none
      rintro ⟨i, b⟩ hib ⟨j, s⟩ hjs hij
      cases hb : b.price with
      | none => exact processPair_none_left hb
      | some bp =>
        cases hs : s.price with
        | none => exact processPair_none_right hb hs
        | some sp =>
          exfalso
          have h2 := enumFrom_countP_two (fun r => r.price.isSome)
            hib hjs hij (by simp [hb]) (by simp [hs])
          omega
    rw [hscan]
    rfl

/-- C9 witness: the empty table. -/
theorem C9_witness :
    (lastPerLocation (sortByDate ([] : List PriceRecord))).countP
      (fun r => r.price.isSome) < 2 ∧
    detect_arbitrage_opportunities get_weather_impact
      estimate_transport_cost [] "t" = .ok [] :=
  ⟨by decide, C9_fewer_than_two_usable get_weather_impact
    estimate_transport_cost [] "t" (by decide)⟩

/-- C10: every emitted opportunity stores `net_profit` and `risk_score`
already rounded to 2 decimal places (they are fixed points of
`round2`), while `buy_price` and `sell_price` are exactly the parsed
prices of the corresponding latest records. -/
theorem C10_rounded_fields_raw_prices {weather transport records now out}
    (h : detect_arbitrage_opportunities weather transport records now =
      .ok out) :
    ∀ o ∈ out, o.netProfit = round2 o.netProfit ∧
      o.riskScore = round2 o.riskScore ∧
      (∃ r ∈ lastPerLocation (sortByDate records),
        r.location = o.buyLocation ∧ r.price = some o.buyPrice) ∧
      (∃ r ∈ lastPerLocation (sortByDate records),
        r.location = o.sellLocation ∧ r.price = some o.sellPrice) := by
  intro o ho
  obtain ⟨b, s, hbmem, hsmem, hne, hpp⟩ := detect_mem_pair h ho
  obtain ⟨bp, sp, risk, hb, hs, h0, hr, hc1, hc2, hn, ho_eq⟩ :=
    processPair_ok_some_inv hpp
  subst ho_eq
  exact ⟨(round2_idem _).symm, (round2_idem _).symm,
    ⟨b, hbmem, rfl, hb⟩, ⟨s, hsmem, rfl, hs⟩⟩

/-- C10 witness: Scenario 1's single opportunity. -/
theorem C10_witness :
    ∃ out, detect_arbitrage_opportunities get_weather_impact
      estimate_transport_cost scenario1Records "t" = .ok out ∧
    ∀ o ∈ out, o.netProfit = round2 o.netProfit ∧
      o.riskScore = round2 o.riskScore ∧
      (∃ r ∈ lastPerLocation (sortByDate scenario1Records),
        r.location = o.buyLocation ∧ r.price = some o.buyPrice) ∧
      (∃ r ∈ lastPerLocation (sortByDate scenario1Records),
        r.location = o.sellLocation ∧ r.price = some o.sellPrice) := by
  have hd : detect_arbitrage_opportunities get_weather_impact
      estimate_transport_cost scenario1Records "t" =
      .ok [⟨"LA", 100, "LB", 200, 70, 11/20, "t"⟩] := by
    norm_num +decide [detect_arbitrage_opportunities, scanOpportunities,
      outerScan, innerScan, processPair, calculate_risk_score,
      get_weather_impact, estimate_transport_cost, transport_matrix,
      pyOrFloat, round2, roundHalfEven, sortByDate, insertByDate,
      lastPerLocation, enumFrom, sortDesc, insertDesc, scenario1Records,
      Except.map]
  exact ⟨_, hd, C10_rounded_fields_raw_prices hd⟩

/-- C7 counterexample: with buy price 100 and sell price 150.001 the
unrounded net profit 20.001 clears the `> 20` gate, but the stored
`net_profit` field is `round(20.001, 2) = 20.0`, which is not greater
than 20.  So "net_profit greater than 20" fails for the emitted
opportunity as stored. -/
theorem C7_counterexample :
    ∃ out, detect_arbitrage_opportunities get_weather_impact
      estimate_transport_cost c7Records "t" = .ok out ∧
    ∃ o ∈ out, ¬ (20 < o.netProfit) := by
  have hd : detect_arbitrage_opportunities get_weather_impact
      estimate_transport_cost c7Records "t" =
      .ok [⟨"LA", 100, "LB", 150001/1000, 20, 11/20, "t"⟩] := by
    norm_num +decide [detect_arbitrage_opportunities, scanOpportunities,
      outerScan, innerScan, processPair, calculate_risk_score,
      get_weather_impact, estimate_transport_cost, transport_matrix,
      pyOrFloat, round2, roundHalfEven, sortByDate, insertByDate,
      lastPerLocation, enumFrom, sortDesc, insertDesc, c7Records,
      Except.map]
  refine ⟨_, hd, ⟨"LA", 100, "LB", 150001/1000, 20, 11/20, "t"⟩,
    List.mem_cons_self _ _, ?_⟩
  norm_num

/-- C7 amended: every emitted opportunity has distinct buy and sell
locations, a strictly positive stored net profit that is at least 20
(rounding the `> 20` gate value to 2 decimals can reach exactly 20),
and a risk score in [0,1], assuming every supplied drought risk lies in
[0,1]. -/
theorem C7_invariants {weather : String → WeatherImpact}
    {transport records now out}
    (hw : ∀ loc, 0 ≤ (weather loc).drought_risk ∧
      (weather loc).drought_risk ≤ 1)
    (h : detect_arbitrage_opportunities weather transport records now =
      .ok out) :
    ∀ o ∈ out, o.buyLocation ≠ o.sellLocation ∧ 0 < o.netProfit ∧
      20 ≤ o.netProfit ∧ 0 ≤ o.riskScore ∧ o.riskScore ≤ 1 := by
  intro o ho
  obtain ⟨b, s, hbmem, hsmem, hne, hpp⟩ := detect_mem_pair h ho
  obtain ⟨bp, sp, risk, hb, hs, h0, hr, hc1, hc2, hn, ho_eq⟩ :=
    processPair_ok_some_inv hpp
  obtain ⟨hr0, hr1⟩ := calculate_risk_score_bounds hw hr
  subst ho_eq
  have h20 : (20:ℚ) ≤
      round2 (sp - bp - transport b.location s.location) :=
    round2_ge_20 hn
  exact ⟨hne, by linarith, h20, round2_nonneg hr0, round2_le_one hr1⟩

/-- C7 witness: the invariants hold for Scenario 1's output under the
concrete weather dict (all drought risks lie in [0,1]). -/
theorem C7_witness :
    ∃ out, detect_arbitrage_opportunities get_weather_impact
      estimate_transport_cost scenario1Records "u" = .ok out ∧
    ∀ o ∈ out, o.buyLocation ≠ o.sellLocation ∧ 0 < o.netProfit ∧
      20 ≤ o.netProfit ∧ 0 ≤ o.riskScore ∧ o.riskScore ≤ 1 := by
  have hd : detect_arbitrage_opportunities get_weather_impact
      estimate_transport_cost scenario1Records "u" =
      .ok [⟨"LA", 100, "LB", 200, 70, 11/20, "u"⟩] := by
    norm_num +decide [detect_arbitrage_opportunities, scanOpportunities,
      outerScan, innerScan, processPair, calculate_risk_score,
      get_weather_impact, estimate_transport_cost, transport_matrix,
      pyOrFloat, round2, roundHalfEven, sortByDate, insertByDate,
      lastPerLocation, enumFrom, sortDesc, insertDesc, scenario1Records,
      Except.map]
  have hw : ∀ loc, 0 ≤ (get_weather_impact loc).drought_risk ∧
      (get_weather_impact loc).drought_risk ≤ 1 := by
    intro loc
    unfold get_weather_impact
    split_ifs <;> norm_num
  exact ⟨_, hd, C7_invariants hw hd⟩

/-- C3 counterexample: six locations with doubling prices give 15
qualifying ordered pairs, and the detector returns all 15 of them — the
returned sequence is not capped at 10 (only the spreadsheet write is). -/
theorem C3_counterexample :
    ∃ out, detect_arbitrage_opportunities get_weather_impact
      estimate_transport_cost c3Records "t" = .ok out ∧
    10 < out.length := by
  have h : Except.map List.length
      (detect_arbitrage_opportunities get_weather_impact
        estimate_transport_cost c3Records "t") = .ok 15 := by
    norm_num +decide [detect_arbitrage_opportunities, scanOpportunities,
      outerScan, innerScan, processPair, calculate_risk_score,
      get_weather_impact, estimate_transport_cost, transport_matrix,
      pyOrFloat, round2, roundHalfEven, sortByDate, insertByDate,
      lastPerLocation, enumFrom, sortDesc, insertDesc, c3Records,
      Except.map]
  cases hd : detect_arbitrage_opportunities get_weather_impact
      estimate_transport_cost c3Records "t" with
  | error e => rw [hd] at h; exact absurd h (by simp [Except.map])
  | ok out =>
    rw [hd] at h
    simp only [Except.map, Except.ok.injEq] at h
    exact ⟨out, rfl, by omega⟩

/-- C3 amended: the cap of 10 applies to the rows written to the
Opportunities sheet (`opportunities[:10]`); the sequence returned by
the detector itself is unbounded. -/
theorem C3_sheet_cap (weather : String → WeatherImpact)
    (transport : String → String → ℚ) (records : List PriceRecord)
    (now : String) (out : List Opportunity)
    (h : sheetOpportunities weather transport records now = .ok out) :
    out.length ≤ 10 := by
  unfold sheetOpportunities at h
  cases hd : detect_arbitrage_opportunities weather transport records
      now with
  | error e => rw [hd] at h; exact absurd h (by simp [Except.map])
  | ok l =>
    rw [hd] at h
    simp only [Except.map, Except.ok.injEq] at h
    subst h
    simp [List.length_take]

/-- C3 witness: the sheet rows for the six-location input are exactly
the top 10. -/
theorem C3_sheet_cap_witness :
    ∃ out, sheetOpportunities get_weather_impact estimate_transport_cost
      c3Records "t" = .ok out ∧ out.length ≤ 10 := by
  have hgood : ∀ r ∈ c3Records, ∀ p, r.price = some p → p ≠ 0 := by
    intro r hr p hp
    fin_cases hr <;> simp_all <;> intro hc <;> subst hc <;> norm_num at hp
  have h : ∃ out, sheetOpportunities get_weather_impact
      estimate_transport_cost c3Records "t" = .ok out := by
    unfold sheetOpportunities
    obtain ⟨out, hd⟩ := @detect_isOk get_weather_impact
      estimate_transport_cost c3Records "t" hgood
    rw [hd]
    exact ⟨_, rfl⟩
  obtain ⟨out, hout⟩ := h
  exact ⟨out, hout, C3_sheet_cap get_weather_impact
    estimate_transport_cost c3Records "t" out hout⟩

/-- C2 counterexample: "Zulu" and "Alpha" both buy at 100 and sell to
"Mike" at 200, so both opportunities have net profit 70; the stable
sort keyed only on net profit leaves them in scan order, with "Zulu"
(lexically greater) before "Alpha" — the claimed lexical tie-break does
not hold. -/
theorem C2_counterexample :
    ∃ o1 o2, detect_arbitrage_opportunities get_weather_impact
      estimate_transport_cost c2Records "t" = .ok [o1, o2] ∧
    o1.netProfit = o2.netProfit ∧
    lexLt o2.buyLocation o1.buyLocation = true := by
  have hd : detect_arbitrage_opportunities get_weather_impact
      estimate_transport_cost c2Records "t" =
      .ok [⟨"Zulu", 100, "Mike", 200, 70, 11/20, "t"⟩,
        ⟨"Alpha", 100, "Mike", 200, 70, 11/20, "t"⟩] := by
    norm_num +decide [detect_arbitrage_opportunities, scanOpportunities,
      outerScan, innerScan, processPair, calculate_risk_score,
      get_weather_impact, estimate_transport_cost, transport_matrix,
      pyOrFloat, round2, roundHalfEven, sortByDate, insertByDate,
      lastPerLocation, enumFrom, sortDesc, insertDesc, c2Records,
      Except.map]
  exact ⟨_, _, hd, rfl, by decide⟩

/-- C2 amended: the output is sorted by net profit in descending order
(adjacent entries are non-increasing, indeed pairwise), and entries
with equal net profit keep the relative order in which the pairwise
scan emitted them (the sort is stable and keyed only on net profit) —
not buy/sell lexical order. -/
theorem C2_sorted_stable {weather transport records now out raw}
    (hs : scanOpportunities weather transport
      (lastPerLocation (sortByDate records)) now = .ok raw)
    (h : detect_arbitrage_opportunities weather transport records now =
      .ok out) :
    List.Pairwise (fun a b => b.netProfit ≤ a.netProfit) out ∧
    ∀ q : ℚ, out.filter (fun o => o.netProfit = q) =
      raw.filter (fun o => o.netProfit = q) := by
  unfold detect_arbitrage_opportunities at h
  split_ifs at h with hlen
  · simp only [Except.ok.injEq] at h
    subst h
    have hlatest : (lastPerLocation (sortByDate records)).length ≤ 1 := by
      have h1 := length_lastPerLocation_le (sortByDate records)
      rw [length_sortByDate] at h1
      omega
    have hraw : raw = [] := by
      cases hl : lastPerLocation (sortByDate records) with
      | nil =>
        rw [hl] at hs
        simp only [scanOpportunities, enumFrom, outerScan,
          Except.ok.injEq] at hs
        exact hs.symm
      | cons r t =>
        cases t with
        | nil =>
          rw [hl] at hs
          simp only [scanOpportunities, enumFrom, outerScan, innerScan,
            if_pos, List.nil_append, Except.ok.injEq] at hs
          exact hs.symm
        | cons r2 t2 =>
          rw [hl] at hlatest
          simp at hlatest
    subst hraw
    exact ⟨List.Pairwise.nil, fun q => rfl⟩
  · rw [hs] at h
    simp only [Except.map, Except.ok.injEq] at h
    subst h
    exact ⟨pairwise_sortDesc raw, fun q => filter_sortDesc raw q⟩

/-- C2 witness: Scenario 1's raw scan and sorted output. -/
theorem C2_sorted_stable_witness :
    ∃ raw out,
    scanOpportunities get_weather_impact estimate_transport_cost
      (lastPerLocation (sortByDate scenario1Records)) "t" = .ok raw ∧
    detect_arbitrage_opportunities get_weather_impact
      estimate_transport_cost scenario1Records "t" = .ok out ∧
    (List.Pairwise (fun a b => b.netProfit ≤ a.netProfit) out ∧
     ∀ q : ℚ, out.filter (fun o => o.netProfit = q) =
       raw.filter (fun o => o.netProfit = q)) := by
  have hs : scanOpportunities get_weather_impact estimate_transport_cost
      (lastPerLocation (sortByDate scenario1Records)) "t" =
      .ok [⟨"LA", 100, "LB", 200, 70, 11/20, "t"⟩] := by
    norm_num +decide [scanOpportunities, outerScan, innerScan,
      processPair, calculate_risk_score, get_weather_impact,
      estimate_transport_cost, transport_matrix, pyOrFloat, round2,
      roundHalfEven, sortByDate, insertByDate, lastPerLocation,
      enumFrom, scenario1Records]
  have hd : detect_arbitrage_opportunities get_weather_impact
      estimate_transport_cost scenario1Records "t" =
      .ok [⟨"LA", 100, "LB", 200, 70, 11/20, "t"⟩] := by
    norm_num +decide [detect_arbitrage_opportunities, scanOpportunities,
      outerScan, innerScan, processPair, calculate_risk_score,
      get_weather_impact, estimate_transport_cost, transport_matrix,
      pyOrFloat, round2, roundHalfEven, sortByDate, insertByDate,
      lastPerLocation, enumFrom, sortDesc, insertDesc, scenario1Records,
      Except.map]
  exact ⟨_, _, hs, hd, C2_sorted_stable hs hd⟩

/-- C5 counterexample: the emitted rows carry `datetime.now()`, so two
invocations on the same inputs at different clock readings differ in
the timestamp field. -/
theorem C5_counterexample :
    detect_arbitrage_opportunities get_weather_impact
      estimate_transport_cost scenario1Records "2024-01-01 00:00:00" ≠
    detect_arbitrage_opportunities get_weather_impact
      estimate_transport_cost scenario1Records "2024-01-01 00:00:01" := by
  have h1 : detect_arbitrage_opportunities get_weather_impact
      estimate_transport_cost scenario1Records "2024-01-01 00:00:00" =
      .ok [⟨"LA", 100, "LB", 200, 70, 11/20, "2024-01-01 00:00:00"⟩] := by
    norm_num +decide [detect_arbitrage_opportunities, scanOpportunities,
      outerScan, innerScan, processPair, calculate_risk_score,
      get_weather_impact, estimate_transport_cost, transport_matrix,
      pyOrFloat, round2, roundHalfEven, sortByDate, insertByDate,
      lastPerLocation, enumFrom, sortDesc, insertDesc, scenario1Records,
      Except.map]
  have h2 : detect_arbitrage_opportunities get_weather_impact
      estimate_transport_cost scenario1Records "2024-01-01 00:00:01" =
      .ok [⟨"LA", 100, "LB", 200, 70, 11/20, "2024-01-01 00:00:01"⟩] := by
    norm_num +decide [detect_arbitrage_opportunities, scanOpportunities,
      outerScan, innerScan, processPair, calculate_risk_score,
      get_weather_impact, estimate_transport_cost, transport_matrix,
      pyOrFloat, round2, roundHalfEven, sortByDate, insertByDate,
      lastPerLocation, enumFrom, sortDesc, insertDesc, scenario1Records,
      Except.map]
  rw [h1, h2]
  intro hc
  simp only [Except.ok.injEq, List.cons.injEq, and_true] at hc
  have := congrArg Opportunity.timestamp hc
  exact absurd this (by decide)

/-- C5 amended: the detector is a deterministic function of its inputs
together with the clock reading: with the same clock reading two
invocations agree exactly, and invocations at different clock readings
agree on everything except the timestamp field, which equals each
invocation's clock reading. -/
theorem C5_determinism (weather : String → WeatherImpact)
    (transport : String → String → ℚ) (records : List PriceRecord)
    (n1 n2 : String) :
    Except.map (List.map clearTimestamp)
      (detect_arbitrage_opportunities weather transport records n1) =
    Except.map (List.map clearTimestamp)
      (detect_arbitrage_opportunities weather transport records n2) ∧
    (∀ out, detect_arbitrage_opportunities weather transport records n1 =
      .ok out → ∀ o ∈ out, o.timestamp = n1) ∧
    (n1 = n2 →
      detect_arbitrage_opportunities weather transport records n1 =
      detect_arbitrage_opportunities weather transport records n2) := by
  refine ⟨?_, ?_, fun he => he ▸ rfl⟩
  · unfold detect_arbitrage_opportunities
    split_ifs with hlen
    · rfl
    · have hc := outerScan_clear weather transport
        (enumFrom 0 (lastPerLocation (sortByDate records)))
        (enumFrom 0 (lastPerLocation (sortByDate records))) n1 n2
      unfold scanOpportunities
      cases h1 : outerScan weather transport
          (enumFrom 0 (lastPerLocation (sortByDate records)))
          (enumFrom 0 (lastPerLocation (sortByDate records))) n1 with
      | error e =>
        rw [h1] at hc
        cases h2 : outerScan weather transport
            (enumFrom 0 (lastPerLocation (sortByDate records)))
            (enumFrom 0 (lastPerLocation (sortByDate records))) n2 with
        | error e2 => cases e; cases e2; rfl
        | ok r2 => rw [h2] at hc; exact absurd hc (by simp [Except.map])
      | ok r1 =>
        rw [h1] at hc
        cases h2 : outerScan weather transport
            (enumFrom 0 (lastPerLocation (sortByDate records)))
            (enumFrom 0 (lastPerLocation (sortByDate records))) n2 with
        | error e2 => rw [h2] at hc; exact absurd hc (by simp [Except.map])
        | ok r2 =>
          rw [h2] at hc
          simp only [Except.map, Except.ok.injEq] at hc ⊢
          have hnet : ∀ o, (clearTimestamp o).netProfit = o.netProfit :=
            fun o => rfl
          rw [sortDesc_map hnet, sortDesc_map hnet, hc]
  · intro out hd o ho
    obtain ⟨b, s, hbmem, hsmem, hne, hpp⟩ := detect_mem_pair hd ho
    obtain ⟨bp, sp, risk, hb, hs, h0, hr, hc1, hc2, hn, ho_eq⟩ :=
      processPair_ok_some_inv hpp
    rw [ho_eq]

/-- C5 witness: the determinism statement instantiated at Scenario 1
and two distinct clock readings, with the timestamp clause discharged
on the concrete output. -/
theorem C5_determinism_witness :
    Except.map (List.map clearTimestamp)
      (detect_arbitrage_opportunities get_weather_impact
        estimate_transport_cost scenario1Records "a") =
    Except.map (List.map clearTimestamp)
      (detect_arbitrage_opportunities get_weather_impact
        estimate_transport_cost scenario1Records "b") ∧
    ∀ o ∈ [(⟨"LA", 100, "LB", 200, 70, 11/20, "a"⟩ : Opportunity)],
      o.timestamp = "a" := by
  have hd : detect_arbitrage_opportunities get_weather_impact
      estimate_transport_cost scenario1Records "a" =
      .ok [⟨"LA", 100, "LB", 200, 70, 11/20, "a"⟩] := by
    norm_num +decide [detect_arbitrage_opportunities, scanOpportunities,
      outerScan, innerScan, processPair, calculate_risk_score,
      get_weather_impact, estimate_transport_cost, transport_matrix,
      pyOrFloat, round2, roundHalfEven, sortByDate, insertByDate,
      lastPerLocation, enumFrom, sortDesc, insertDesc, scenario1Records,
      Except.map]
  exact ⟨(C5_determinism get_weather_impact estimate_transport_cost
      scenario1Records "a" "b").1,
    (C5_determinism get_weather_impact estimate_transport_cost
      scenario1Records "a" "b").2.1 _ hd⟩

/-- C1: on a table of at least two records whose prices are all numeric
and positive (and whose volumes parse), the detector succeeds, and for
every ordered pair of distinct latest locations an opportunity with
that (buy, sell) pair is emitted if and only if
`gross_profit > 50`, `profit_margin_pct > 10` and
`net_profit = gross_profit - transport_cost(buy, sell) > 20`; pairs
failing any threshold are silently dropped. -/
theorem C1_threshold_iff (weather : String → WeatherImpact)
    (transport : String → String → ℚ) (records : List PriceRecord)
    (now : String)
    (hlen : 2 ≤ records.length)
    (hprice : ∀ r ∈ records, ∃ p, r.price = some p ∧ 0 < p)
    (hvol : ∀ r ∈ records, ∃ v, r.volume = some v) :
    ∃ out, detect_arbitrage_opportunities weather transport records now =
      .ok out ∧
    ∀ b ∈ lastPerLocation (sortByDate records),
    ∀ s ∈ lastPerLocation (sortByDate records),
    b.location ≠ s.location →
    ∀ bp sp, b.price = some bp → s.price = some sp →
    ((∃ o ∈ out, o.buyLocation = b.location ∧
        o.sellLocation = s.location) ↔
      (50 < sp - bp ∧ 10 < (sp - bp) / bp * 100 ∧
        20 < sp - bp - transport b.location s.location)) := by
  have hnz : ∀ r ∈ records, ∀ p, r.price = some p → p ≠ 0 := by
    intro r hr p hp
    obtain ⟨p', hp', hpos⟩ := hprice r hr
    rw [hp] at hp'
    obtain rfl := Option.some.inj hp'
    exact ne_of_gt hpos
  obtain ⟨out, hd⟩ := detect_isOk hnz
  have hlen' : ¬ records.length < 2 := by omega
  refine ⟨out, hd, ?_⟩
  intro b hbmem s hsmem hne bp sp hb hs
  have hbrec : b ∈ records :=
    mem_sortByDate.mp (lastPerLocation_subset hbmem)
  have hsrec : s ∈ records :=
    mem_sortByDate.mp (lastPerLocation_subset hsmem)
  constructor
  · rintro ⟨o, ho, hob, hos⟩
    obtain ⟨i, b', j, s', hib, hjs, hij, hpp⟩ :=
      (detect_ok_mem_iff hlen' hd).mp ho
    obtain ⟨bp', sp', risk, hb', hs', h0, hr, hc1, hc2, hn, ho_eq⟩ :=
      processPair_ok_some_inv hpp
    have hb'mem : b' ∈ lastPerLocation (sortByDate records) :=
      mem_enumFrom_elem hib
    have hs'mem : s' ∈ lastPerLocation (sortByDate records) :=
      mem_enumFrom_elem hjs
    have hbloc : b'.location = b.location := by
      rw [← hob, ho_eq]
    have hsloc : s'.location = s.location := by
      rw [← hos, ho_eq]
    obtain rfl := location_inj_lastPerLocation hb'mem hbmem hbloc
    obtain rfl := location_inj_lastPerLocation hs'mem hsmem hsloc
    rw [hb] at hb'
    obtain rfl := Option.some.inj hb'
    rw [hs] at hs'
    obtain rfl := Option.some.inj hs'
    exact ⟨hc1, hc2, hn⟩
  · rintro ⟨hc1, hc2, hn⟩
    have h0 : bp ≠ 0 := hnz b hbrec bp hb
    obtain ⟨v, hv⟩ := hvol b hbrec
    have hr := calculate_risk_score_formula weather b s
      ((sp - bp) / bp * 100) hv
    have hpp := @processPair_spec weather transport b s now bp sp _
      hb hs h0 hr
    rw [if_pos ⟨hc1, hc2, hn⟩] at hpp
    obtain ⟨i, hib⟩ := @exists_mem_enumFrom 0
      (lastPerLocation (sortByDate records)) b hbmem
    obtain ⟨j, hjs⟩ := @exists_mem_enumFrom 0
      (lastPerLocation (sortByDate records)) s hsmem
    have hij : i ≠ j := by
      intro he
      subst he
      exact hne (enumFrom_idx_inj hib hjs ▸ rfl)
    exact ⟨_, (detect_ok_mem_iff hlen' hd).mpr
      ⟨i, b, j, s, hib, hjs, hij, hpp⟩, rfl, rfl⟩

/-- C1 witness: Scenario 1's table, where the pair (LA, LB) clears all
three thresholds and the reverse pair does not. -/
theorem C1_witness :
    ∃ out, detect_arbitrage_opportunities get_weather_impact
      estimate_transport_cost scenario1Records "t" = .ok out ∧
    ∀ b ∈ lastPerLocation (sortByDate scenario1Records),
    ∀ s ∈ lastPerLocation (sortByDate scenario1Records),
    b.location ≠ s.location →
    ∀ bp sp, b.price = some bp → s.price = some sp →
    ((∃ o ∈ out, o.buyLocation = b.location ∧
        o.sellLocation = s.location) ↔
      (50 < sp - bp ∧ 10 < (sp - bp) / bp * 100 ∧
        20 < sp - bp -
          estimate_transport_cost b.location s.location)) := by
  refine C1_threshold_iff get_weather_impact estimate_transport_cost
    scenario1Records "t" (by norm_num [scenario1Records]) ?_ ?_
  · intro r hr
    fin_cases hr
    · exact ⟨100, rfl, by norm_num⟩
    · exact ⟨200, rfl, by norm_num⟩
  · intro r hr
    fin_cases hr
    · exact ⟨1000, rfl⟩
    · exact ⟨1000, rfl⟩
